import Mathlib

/-!
# Verification of the EZ Timeline project core

A shallow embedding, in Lean 4, of the timeline layout engine, the two
timeline renderers, the view/zoom state, the persisted-state readers and the
Kanban board of the `ez_timeline_project` repository, together with theorems
settling the specified properties.

Modelling conventions:

* Calendar dates are day numbers (`Int`, days since the JavaScript epoch
  1970-01-01, which was a Thursday).  The spec declares time-of-day
  insignificant, so every `Date` is midnight-aligned and `differenceInDays`
  becomes integer subtraction.  An invalid JavaScript `Date` (`NaN` time
  value) is modelled as `none : Option Int`.
* JavaScript numeric expressions appearing in layout math are modelled over
  `ℚ` (exact arithmetic); integer-valued intermediate results stay in `Int`.
* `Math.max`/`Math.min` are `max`/`min`; `Math.round` is `round` (both round
  halves up); `Array.prototype.findIndex` is `jsFindIndex`, returning `-1`
  when no element matches.
* The date-fns functions used by the source (`differenceInDays`,
  `startOfWeek`/`endOfWeek` with the default Sunday week start,
  `startOfMonth`/`endOfMonth` over the proleptic Gregorian calendar, and the
  `each*OfInterval` generators) are external library functions; they are
  given executable models below under their library names.
-/

namespace EzTimeline

/-- JavaScript `Array.prototype.findIndex`: index of the first element
satisfying `p`, and `-1` when none does. -/
def jsFindIndex {α : Type} (p : α → Bool) (l : List α) : Int :=
  match l.findIdx? p with
  | some i => (i : Int)
  | none => -1

/-- `src/src/types/index.ts` `Task`, restricted to the fields the verified
components read: `id`, `title`, `startDate`, `endDate`, `completed` and the
optional `status`.  A date is `none` when the JavaScript `Date` is invalid. -/
structure Task where
  id : String
  title : String
  startDate : Option Int
  endDate : Option Int
  completed : Bool
  status : Option String
deriving Repr, DecidableEq

/-! ## View/Zoom state (`src/src/store/useStore.ts`, `TimelineZoomSlider.tsx`) -/

/-- `useStore.ts` `setTimelineZoom`: the zoom value stored (and persisted)
after clamping: `Math.max(50, Math.min(200, zoom))`. -/
def setTimelineZoom (zoom : Int) : Int :=
  max 50 (min 200 zoom)

/-- `TimelineZoomSlider.tsx` `handleZoomIn`:
`setTimelineZoom(Math.min(200, timelineZoom + 25))`. -/
def handleZoomIn (timelineZoom : Int) : Int :=
  setTimelineZoom (min 200 (timelineZoom + 25))

/-- `TimelineZoomSlider.tsx` `handleZoomOut`:
`setTimelineZoom(Math.max(50, timelineZoom - 25))`. -/
def handleZoomOut (timelineZoom : Int) : Int :=
  setTimelineZoom (max 50 (timelineZoom - 25))

/-- `TimelineZoomSlider.tsx` `handleReset`: `setTimelineZoom(100)`. -/
def handleReset : Int :=
  setTimelineZoom 100

/-- `useStore.ts` `updateTask`:
`tasks.map(t => t.id === task.id ? task : t)`. -/
def updateTask (task : Task) (tasks : List Task) : List Task :=
  tasks.map fun t => if t.id = task.id then task else t

/-- `useStore.ts` `deleteTask`: `tasks.filter(t => t.id !== taskId)`. -/
def deleteTask (taskId : String) (tasks : List Task) : List Task :=
  tasks.filter fun t => t.id ≠ taskId

/-! ## Persisted view-state readers (`src/src/store/useStore.ts`) -/

/-- A parsed JSON value, restricted to the scalar shapes relevant to the
persisted view state. -/
inductive JsonVal where
  | num (q : ℚ)
  | str (s : String)
  | bool (b : Bool)
  | null
deriving Repr, DecidableEq

/-- Decimal value of a digit list. -/
def digitListVal (ds : List Char) : Nat :=
  ds.foldl (fun n c => 10 * n + (c.toNat - 48)) 0

/-- Model of the external `JSON.parse`, restricted to the scalar literals
exercised here: integer literals, `true`, `false`, `null`, and quoted
strings; every other input is `none`, modelling a thrown `SyntaxError`.
Faithful to `JSON.parse` on these inputs. -/
def jsonParseLite (s : String) : Option JsonVal :=
  match s.toList with
  | [] => none
  | c :: cs =>
    if (c :: cs).all Char.isDigit then some (JsonVal.num (digitListVal (c :: cs)))
    else if c == '-' && !cs.isEmpty && cs.all Char.isDigit then
      some (JsonVal.num (-(digitListVal cs : Int)))
    else if s = "true" then some (JsonVal.bool true)
    else if s = "false" then some (JsonVal.bool false)
    else if s = "null" then some JsonVal.null
    else if c == '"' && cs.getLast? == some '"' then
      some (JsonVal.str (String.mk cs.dropLast))
    else none

/-- `useStore.ts` `initializeTimelineZoom`: reads the `timelineZoom` local
storage key (`none` = key absent); an empty string is falsy in JavaScript, so
`saved ? JSON.parse(saved) : 100` yields `100` for it; a parse failure is
caught and yields `100`; otherwise the parsed value is returned. -/
def initializeTimelineZoom (stored : Option String) : JsonVal :=
  match stored with
  | none => JsonVal.num 100
  | some s =>
    if s = "" then JsonVal.num 100
    else
      match jsonParseLite s with
      | none => JsonVal.num 100
      | some v => v

/-- `useStore.ts` `initializeSidebarState`: same shape over the
`sidebarCollapsed` key, with default `false`. -/
def initializeSidebarState (stored : Option String) : JsonVal :=
  match stored with
  | none => JsonVal.bool false
  | some s =>
    if s = "" then JsonVal.bool false
    else
      match jsonParseLite s with
      | none => JsonVal.bool false
      | some v => v

/-! ## Kanban board (`src/src/components/KanbanBoard.tsx`) -/

/-- `src/src/types/index.ts` `KanbanColumn` (the `color` field is presentation
only and not read by the verified operations). -/
structure KanbanColumn where
  id : String
  title : String
  status : String
deriving Repr, DecidableEq

/-- `KanbanBoard.tsx` `getTasksByStatus`:
`tasks.filter(task => (task.status || 'todo') === status)`. -/
def getTasksByStatus (tasks : List Task) (status : String) : List Task :=
  tasks.filter fun task => (task.status.getD "todo") = status

/-- `KanbanBoard.tsx` `handleDrop` applied to a dragged task and the target
column status; `none` models the early return (no update is issued) taken
when `draggedTask.status === newStatus`; otherwise the updated task
`{ ...draggedTask, status: newStatus, completed: newStatus === 'done' }` is
written. -/
def handleDrop (draggedTask : Task) (newStatus : String) : Option Task :=
  if draggedTask.status = some newStatus then none
  else some { draggedTask with
                status := some newStatus
                completed := newStatus = "done" }

/-- `KanbanBoard.tsx` initial `customColumns` state. -/
def initialCustomColumns : List KanbanColumn :=
  [ ⟨"todo", "To Do", "todo"⟩,
    ⟨"in-progress", "In Progress", "in-progress"⟩,
    ⟨"done", "Done", "done"⟩,
    ⟨"pending", "Pending", "pending"⟩,
    ⟨"blocked", "Blocked", "blocked"⟩ ]

/-- The guard list in `KanbanBoard.tsx` `handleDeleteColumn`:
`['todo', 'in-progress', 'done', 'pending', 'blocked']`. -/
def defaultColumnIds : List String :=
  ["todo", "in-progress", "done", "pending", "blocked"]

/-- `KanbanBoard.tsx` `handleAddColumn`: no-op on a blank title, otherwise
appends a column whose id and status are `custom-` followed by the
(distinct) `Date.now()` readings. -/
def handleAddColumn (cols : List KanbanColumn) (title : String)
    (ts1 ts2 : Nat) : List KanbanColumn :=
  if title.trim = "" then cols
  else cols ++ [⟨"custom-" ++ toString ts1, title, "custom-" ++ toString ts2⟩]

/-- `KanbanBoard.tsx` `handleDeleteColumn`: refuses to delete a default
column id, otherwise filters it out. -/
def handleDeleteColumn (cols : List KanbanColumn) (columnId : String) :
    List KanbanColumn :=
  if columnId ∈ defaultColumnIds then cols
  else cols.filter fun col => col.id ≠ columnId

/-- `KanbanBoard.tsx` `handleEditColumn`: renames the column with the given
id, keeping every id in place. -/
def handleEditColumn (cols : List KanbanColumn) (columnId newTitle : String) :
    List KanbanColumn :=
  cols.map fun col => if col.id = columnId then { col with title := newTitle } else col

/-- A user operation on the Kanban column set. -/
inductive ColumnOp where
  | add (title : String) (ts1 ts2 : Nat)
  | delete (columnId : String)
  | rename (columnId newTitle : String)
deriving Repr, DecidableEq

/-- One column-set operation step. -/
def applyColumnOp (cols : List KanbanColumn) : ColumnOp → List KanbanColumn
  | ColumnOp.add title ts1 ts2 => handleAddColumn cols title ts1 ts2
  | ColumnOp.delete columnId => handleDeleteColumn cols columnId
  | ColumnOp.rename columnId newTitle => handleEditColumn cols columnId newTitle

/-- The column set reached from the initial state by a sequence of user
operations. -/
def runColumnOps (ops : List ColumnOp) : List KanbanColumn :=
  ops.foldl applyColumnOp initialCustomColumns

/-! ## date-fns models (external library functions used by the renderers) -/

/-- date-fns `differenceInDays` on midnight-aligned dates. -/
def differenceInDays (a b : Int) : Int := a - b

/-- date-fns `startOfWeek` with the default `weekStartsOn: 0` (Sunday):
day 0 (1970-01-01) was a Thursday, so day `d` falls on weekday
`(d + 4) % 7`, with Sunday = 0. -/
def startOfWeek (d : Int) : Int := d - (d + 4).emod 7

/-- date-fns `endOfWeek` (Saturday of the same Sunday-aligned week). -/
def endOfWeek (d : Int) : Int := startOfWeek d + 6

/-- A proleptic-Gregorian civil date. -/
structure CivilDate where
  year : Int
  month : Int
  day : Int
deriving Repr, DecidableEq

/-- Day number (days since 1970-01-01) of a civil date. -/
def daysFromCivil (c : CivilDate) : Int :=
  let y := if c.month ≤ 2 then c.year - 1 else c.year
  let era := Int.fdiv y 400
  let yoe := y - era * 400
  let mp := if c.month > 2 then c.month - 3 else c.month + 9
  let doy := (153 * mp + 2) / 5 + c.day - 1
  let doe := yoe * 365 + yoe / 4 - yoe / 100 + doy
  era * 146097 + doe - 719468

/-- Civil date of a day number (inverse of `daysFromCivil`). -/
def civilFromDays (z0 : Int) : CivilDate :=
  let z := z0 + 719468
  let era := Int.fdiv z 146097
  let doe := z - era * 146097
  let yoe := (doe - doe / 1460 + doe / 36524 - doe / 146096) / 365
  let y := yoe + era * 400
  let doy := doe - (365 * yoe + yoe / 4 - yoe / 100)
  let mp := (5 * doy + 2) / 153
  let d := doy - (153 * mp + 2) / 5 + 1
  let m := if mp < 10 then mp + 3 else mp - 9
  ⟨if m ≤ 2 then y + 1 else y, m, d⟩

/-- date-fns `startOfMonth` as a day number. -/
def startOfMonth (d : Int) : Int :=
  let c := civilFromDays d
  daysFromCivil ⟨c.year, c.month, 1⟩

/-- date-fns `endOfMonth` as a day number (last day of `d`'s month). -/
def endOfMonth (d : Int) : Int :=
  let c := civilFromDays d
  (if c.month = 12 then daysFromCivil ⟨c.year + 1, 1, 1⟩
   else daysFromCivil ⟨c.year, c.month + 1, 1⟩) - 1

/-- Months elapsed since month 0 (January of year 0) for the month
containing day `d`. -/
def monthOrdinal (d : Int) : Int :=
  let c := civilFromDays d
  12 * c.year + (c.month - 1)

/-- First day of the month with the given ordinal. -/
def monthStartOfOrdinal (i : Int) : Int :=
  daysFromCivil ⟨Int.fdiv i 12, i.emod 12 + 1, 1⟩

/-- date-fns `eachDayOfInterval`: every day from `s` to `e` inclusive. -/
def eachDayOfInterval (s e : Int) : List Int :=
  (List.range (e - s + 1).toNat).map fun (k : Nat) => s + (k : Int)

/-- date-fns `eachWeekOfInterval`: the Sunday week-starts from
`startOfWeek s` to `startOfWeek e` inclusive. -/
def eachWeekOfInterval (s e : Int) : List Int :=
  (List.range (((startOfWeek e - startOfWeek s) / 7 + 1).toNat)).map
    fun (k : Nat) => startOfWeek s + 7 * (k : Int)

/-- date-fns `eachMonthOfInterval`: the month-starts from `s`'s month to
`e`'s month inclusive. -/
def eachMonthOfInterval (s e : Int) : List Int :=
  (List.range ((monthOrdinal e - monthOrdinal s + 1).toNat)).map
    fun (k : Nat) => monthStartOfOrdinal (monthOrdinal s + (k : Int))

/-! ## Timeline layout engine
(`src/unnamed/part_000`s `Timeline` component, here called the editable
renderer, and `src/src/components/ReadOnlyTimeline.tsx`; their `timelineData`
memos are token-identical, so one definition embeds both) -/

/-- The timeline view granularities handled by the renderers' `switch`
(the fourth `ViewType` value, `kanban`, bypasses the layout engine). -/
inductive ViewType where
  | daily
  | weekly
  | monthly
deriving Repr, DecidableEq

/-- The renderable grid model returned by the `timelineData` memo. -/
structure TimelineData where
  periods : List Int
  tasks : List Task
  startDate : Option Int
  endDate : Option Int
deriving Repr, DecidableEq

/-- `isValidDate`: `d instanceof Date && !isNaN(d.getTime())`. -/
def isValidDate : Option Int → Bool := Option.isSome

/-- The valid-date filter both renderers apply first:
`tasks.filter(t => isValidDate(t.startDate) && isValidDate(t.endDate))`. -/
def validTasksOf (tasks : List Task) : List Task :=
  tasks.filter fun t => isValidDate t.startDate && isValidDate t.endDate

/-- The `timelineData` memo of both renderers: filter valid tasks, scan both
date fields of every task for the range, then bucket the (possibly widened)
range into periods.  `getD 0` reads the date of a task that passed the
validity filter. -/
def timelineData (tasks : List Task) (currentView : ViewType) : TimelineData :=
  let validTasks := validTasksOf tasks
  match validTasks with
  | [] => ⟨[], [], none, none⟩
  | _ :: _ =>
    let allDates := validTasks.flatMap fun t => [t.startDate.getD 0, t.endDate.getD 0]
    let minDate := allDates.min?.getD 0
    let maxDate := allDates.max?.getD 0
    match currentView with
    | ViewType.daily =>
      ⟨eachDayOfInterval minDate maxDate, validTasks, some minDate, some maxDate⟩
    | ViewType.weekly =>
      ⟨eachWeekOfInterval (startOfWeek minDate) (endOfWeek maxDate), validTasks,
        some (startOfWeek minDate), some (endOfWeek maxDate)⟩
    | ViewType.monthly =>
      ⟨eachMonthOfInterval (startOfMonth minDate) (endOfMonth maxDate), validTasks,
        some (startOfMonth minDate), some (endOfMonth maxDate)⟩

/-- A task position as returned by `getTaskPosition`: percent units in the
editable renderer, pixel units in the read-only renderer. -/
structure Position where
  left : ℚ
  width : ℚ
deriving Repr, DecidableEq

/-- `periods.findIndex(period => d >= period && d <= periodEnd(period))` —
the week/month search both renderers run, with `periodEnd` standing for
`endOfWeek` or `endOfMonth`. -/
def periodSearchIdx (periodEnd : Int → Int) (periods : List Int) (d : Int) : Int :=
  jsFindIndex (fun period => decide (d ≥ period) && decide (d ≤ periodEnd period)) periods

/-- `Math.max(0, taskStartWeek >= 0 ? taskStartWeek : 0)` (same for
months). -/
def resolvedStartIdx (periodEnd : Int → Int) (periods : List Int)
    (taskStart : Int) : Int :=
  let i := periodSearchIdx periodEnd periods taskStart
  max 0 (if i ≥ 0 then i else 0)

/-- `Math.min(total - 1, Math.max(taskEndWeek >= 0 ? taskEndWeek : startWeek,
startWeek))` (same for months). -/
def resolvedEndIdx (periodEnd : Int → Int) (periods : List Int)
    (taskStart taskEnd : Int) : Int :=
  let s := resolvedStartIdx periodEnd periods taskStart
  let i := periodSearchIdx periodEnd periods taskEnd
  min ((periods.length : Int) - 1) (max (if i ≥ 0 then i else s) s)

/-- `totalDays = differenceInDays(endDate, startDate) + 1`. -/
def totalDaysOf (sd ed : Int) : Int := differenceInDays ed sd + 1

/-- `taskStartDays = Math.max(0, differenceInDays(task.startDate, startDate))`. -/
def dailyStartDays (sd taskStart : Int) : Int :=
  max 0 (differenceInDays taskStart sd)

/-- `taskEndDays = Math.min(totalDays - 1, differenceInDays(task.endDate,
startDate))`. -/
def dailyEndDays (sd ed taskEnd : Int) : Int :=
  min (totalDaysOf sd ed - 1) (differenceInDays taskEnd sd)

/-- `taskDuration = Math.max(1, taskEndDays - taskStartDays + 1)`. -/
def dailyDuration (sd ed taskStart taskEnd : Int) : Int :=
  max 1 (dailyEndDays sd ed taskEnd - dailyStartDays sd taskStart + 1)

/-- `getTaskPosition` of the editable `Timeline` component: percent of the
total span.  `taskStart`/`taskEnd` are the dates of the (valid) task being
positioned. -/
def getTaskPosition (currentView : ViewType) (td : TimelineData)
    (taskStart taskEnd : Int) : Position :=
  match td.startDate, td.endDate with
  | some sd, some ed =>
    if td.periods.length = 0 then ⟨0, 0⟩
    else
      match currentView with
      | ViewType.weekly =>
        let total : ℚ := (td.periods.length : ℚ)
        let s := resolvedStartIdx endOfWeek td.periods taskStart
        let e := resolvedEndIdx endOfWeek td.periods taskStart taskEnd
        ⟨((s : ℚ) / total) * 100, (((e - s + 1 : Int) : ℚ) / total) * 100⟩
      | ViewType.monthly =>
        let total : ℚ := (td.periods.length : ℚ)
        let s := resolvedStartIdx endOfMonth td.periods taskStart
        let e := resolvedEndIdx endOfMonth td.periods taskStart taskEnd
        ⟨((s : ℚ) / total) * 100, (((e - s + 1 : Int) : ℚ) / total) * 100⟩
      | ViewType.daily =>
        let totalDays := totalDaysOf sd ed
        let s := dailyStartDays sd taskStart
        let dur := dailyDuration sd ed taskStart taskEnd
        let left := ((s : ℚ) / (totalDays : ℚ)) * 100
        let width := ((dur : ℚ) / (totalDays : ℚ)) * 100
        ⟨max 0 left, max 1 width⟩
  | _, _ => ⟨0, 0⟩

/-- `getTaskPosition` of `ReadOnlyTimeline`: pixel units, already multiplied
by `columnWidth`. -/
def getTaskPositionRO (currentView : ViewType) (td : TimelineData)
    (taskStart taskEnd : Int) (columnWidth : Int) : Position :=
  match td.startDate, td.endDate with
  | some sd, some ed =>
    if td.periods.length = 0 then ⟨0, 0⟩
    else
      match currentView with
      | ViewType.weekly =>
        let s := resolvedStartIdx endOfWeek td.periods taskStart
        let e := resolvedEndIdx endOfWeek td.periods taskStart taskEnd
        ⟨((s * columnWidth : Int) : ℚ), (((e - s + 1) * columnWidth : Int) : ℚ)⟩
      | ViewType.monthly =>
        let s := resolvedStartIdx endOfMonth td.periods taskStart
        let e := resolvedEndIdx endOfMonth td.periods taskStart taskEnd
        ⟨((s * columnWidth : Int) : ℚ), (((e - s + 1) * columnWidth : Int) : ℚ)⟩
      | ViewType.daily =>
        let s := dailyStartDays sd taskStart
        let dur := dailyDuration sd ed taskStart taskEnd
        let left := s * columnWidth
        let width := dur * columnWidth
        ⟨((max 0 left : Int) : ℚ), ((max columnWidth width : Int) : ℚ)⟩
  | _, _ => ⟨0, 0⟩

/-- `getColumnWidth` (identical in both renderers):
`Math.round(baseWidth * (timelineZoom / 100))` with base 100/120/150 px. -/
def getColumnWidth (currentView : ViewType) (timelineZoom : Int) : Int :=
  let baseWidth : Int :=
    match currentView with
    | ViewType.daily => 100
    | ViewType.weekly => 120
    | ViewType.monthly => 150
  round ((baseWidth : ℚ) * ((timelineZoom : ℚ) / 100))

/-- Final bar geometry of the editable renderer (its task-bar `style`):
`left = (position.left / 100) * (periods.length * columnWidth)` px,
`width = Math.max((position.width / 100) * (periods.length * columnWidth),
40)` px. -/
def renderedBar (tasks : List Task) (currentView : ViewType) (zoom : Int)
    (taskStart taskEnd : Int) : Position :=
  let td := timelineData tasks currentView
  let c := getColumnWidth currentView zoom
  let content : ℚ := ((td.periods.length : Int) * c : Int)
  let pos := getTaskPosition currentView td taskStart taskEnd
  ⟨(pos.left / 100) * content, max ((pos.width / 100) * content) 40⟩

/-- Final bar geometry of the read-only renderer (its task-bar `style`):
`left = position.left` px, `width = Math.max(position.width, 40)` px. -/
def renderedBarRO (tasks : List Task) (currentView : ViewType) (zoom : Int)
    (taskStart taskEnd : Int) : Position :=
  let td := timelineData tasks currentView
  let c := getColumnWidth currentView zoom
  let pos := getTaskPositionRO currentView td taskStart taskEnd c
  ⟨pos.left, max pos.width 40⟩

/-- Both date fields of every valid task, in scan order (`allDates`). -/
def allDatesOf (tasks : List Task) : List Int :=
  (validTasksOf tasks).flatMap fun t => [t.startDate.getD 0, t.endDate.getD 0]

/-- `minDate = new Date(Math.min(...allDates))`. -/
def rangeMinOf (tasks : List Task) : Int := (allDatesOf tasks).min?.getD 0

/-- `maxDate = new Date(Math.max(...allDates))`. -/
def rangeMaxOf (tasks : List Task) : Int := (allDatesOf tasks).max?.getD 0

/-! ## Helper lemmas -/

theorem foldl_min_le_init (l : List Int) (a : Int) : l.foldl min a ≤ a := by
  induction l generalizing a with
  | nil => exact le_refl a
  | cons c t ih => exact le_trans (ih (min a c)) (min_le_left a c)

theorem foldl_min_le_mem {l : List Int} {b : Int} (hb : b ∈ l) (a : Int) :
    l.foldl min a ≤ b := by
  induction l generalizing a with
  | nil => cases hb
  | cons c t ih =>
    rcases List.mem_cons.mp hb with h | h
    · subst h
      exact le_trans (foldl_min_le_init t (min a b)) (min_le_right a b)
    · exact ih h (min a c)

theorem le_foldl_max_init (l : List Int) (a : Int) : a ≤ l.foldl max a := by
  induction l generalizing a with
  | nil => exact le_refl a
  | cons c t ih => exact le_trans (le_max_left a c) (ih (max a c))

theorem mem_le_foldl_max {l : List Int} {b : Int} (hb : b ∈ l) (a : Int) :
    b ≤ l.foldl max a := by
  induction l generalizing a with
  | nil => cases hb
  | cons c t ih =>
    rcases List.mem_cons.mp hb with h | h
    · subst h
      exact le_trans (le_max_right a b) (le_foldl_max_init t (max a b))
    · exact ih h (max a c)

theorem rangeMinOf_le {tasks : List Task} {d : Int} (hd : d ∈ allDatesOf tasks) :
    rangeMinOf tasks ≤ d := by
  unfold rangeMinOf
  rcases h : allDatesOf tasks with _ | ⟨a, l⟩
  · rw [h] at hd; cases hd
  · rw [h] at hd
    simp only [List.min?, Option.getD_some]
    rcases List.mem_cons.mp hd with hd | hd
    · subst hd; exact foldl_min_le_init l d
    · exact foldl_min_le_mem hd a

theorem le_rangeMaxOf {tasks : List Task} {d : Int} (hd : d ∈ allDatesOf tasks) :
    d ≤ rangeMaxOf tasks := by
  unfold rangeMaxOf
  rcases h : allDatesOf tasks with _ | ⟨a, l⟩
  · rw [h] at hd; cases hd
  · rw [h] at hd
    simp only [List.max?, Option.getD_some]
    rcases List.mem_cons.mp hd with hd | hd
    · subst hd; exact le_foldl_max_init l d
    · exact mem_le_foldl_max hd a

theorem startDate_mem_allDatesOf {tasks : List Task} {t : Task}
    (ht : t ∈ validTasksOf tasks) : t.startDate.getD 0 ∈ allDatesOf tasks := by
  unfold allDatesOf
  exact List.mem_flatMap.mpr ⟨t, ht, by simp⟩

theorem endDate_mem_allDatesOf {tasks : List Task} {t : Task}
    (ht : t ∈ validTasksOf tasks) : t.endDate.getD 0 ∈ allDatesOf tasks := by
  unfold allDatesOf
  exact List.mem_flatMap.mpr ⟨t, ht, by simp⟩

theorem rangeMinOf_le_rangeMaxOf {tasks : List Task}
    (h : validTasksOf tasks ≠ []) : rangeMinOf tasks ≤ rangeMaxOf tasks := by
  rcases hv : validTasksOf tasks with _ | ⟨t, l⟩
  · exact absurd hv h
  · have ht : t ∈ validTasksOf tasks := by rw [hv]; exact List.mem_cons_self t l
    exact le_trans (rangeMinOf_le (startDate_mem_allDatesOf ht))
      (le_rangeMaxOf (startDate_mem_allDatesOf ht))

theorem timelineData_of_empty {tasks : List Task} (h : validTasksOf tasks = [])
    (v : ViewType) : timelineData tasks v = ⟨[], [], none, none⟩ := by
  unfold timelineData
  rw [h]

theorem timelineData_daily {tasks : List Task} (h : validTasksOf tasks ≠ []) :
    timelineData tasks ViewType.daily =
      ⟨eachDayOfInterval (rangeMinOf tasks) (rangeMaxOf tasks), validTasksOf tasks,
        some (rangeMinOf tasks), some (rangeMaxOf tasks)⟩ := by
  unfold timelineData rangeMinOf rangeMaxOf allDatesOf
  rcases hv : validTasksOf tasks with _ | ⟨t, l⟩
  · exact absurd hv h
  · rfl

theorem timelineData_weekly {tasks : List Task} (h : validTasksOf tasks ≠ []) :
    timelineData tasks ViewType.weekly =
      ⟨eachWeekOfInterval (startOfWeek (rangeMinOf tasks)) (endOfWeek (rangeMaxOf tasks)),
        validTasksOf tasks,
        some (startOfWeek (rangeMinOf tasks)), some (endOfWeek (rangeMaxOf tasks))⟩ := by
  unfold timelineData rangeMinOf rangeMaxOf allDatesOf
  rcases hv : validTasksOf tasks with _ | ⟨t, l⟩
  · exact absurd hv h
  · rfl

theorem timelineData_monthly {tasks : List Task} (h : validTasksOf tasks ≠ []) :
    timelineData tasks ViewType.monthly =
      ⟨eachMonthOfInterval (startOfMonth (rangeMinOf tasks)) (endOfMonth (rangeMaxOf tasks)),
        validTasksOf tasks,
        some (startOfMonth (rangeMinOf tasks)), some (endOfMonth (rangeMaxOf tasks))⟩ := by
  unfold timelineData rangeMinOf rangeMaxOf allDatesOf
  rcases hv : validTasksOf tasks with _ | ⟨t, l⟩
  · exact absurd hv h
  · rfl

theorem timelineData_tasks_eq (tasks : List Task) (v : ViewType) :
    (timelineData tasks v).tasks = validTasksOf tasks := by
  by_cases h : validTasksOf tasks = []
  · rw [timelineData_of_empty h, h]
  · cases v
    · rw [timelineData_daily h]
    · rw [timelineData_weekly h]
    · rw [timelineData_monthly h]

theorem length_eachDayOfInterval (s e : Int) :
    (eachDayOfInterval s e).length = (e - s + 1).toNat := by
  simp [eachDayOfInterval]

theorem validTasksOf_nodup {tasks : List Task} (h : tasks.Nodup) :
    (validTasksOf tasks).Nodup :=
  h.filter _

/-! ## Claim theorems -/

/-- C5 (confirmed): for every integer `x`, `setTimelineZoom x` stores a value
in [50, 200] — values below 50 become 50 and values above 200 become 200
(in-range values are kept) — `handleZoomIn` at zoom 200 and `handleZoomOut`
at zoom 50 leave the zoom unchanged, and `handleReset` stores exactly 100. -/
theorem zoom_setter_clamps :
    (∀ x : Int, 50 ≤ setTimelineZoom x ∧ setTimelineZoom x ≤ 200
      ∧ (x < 50 → setTimelineZoom x = 50) ∧ (200 < x → setTimelineZoom x = 200)
      ∧ (50 ≤ x → x ≤ 200 → setTimelineZoom x = x))
    ∧ handleZoomIn 200 = 200 ∧ handleZoomOut 50 = 50 ∧ handleReset = 100 := by
  refine ⟨fun x => ⟨?_, ?_, ?_, ?_, ?_⟩, by decide, by decide, by decide⟩ <;>
    simp only [setTimelineZoom] <;> omega

theorem zoom_setter_clamps_witness :
    setTimelineZoom 30 = 50 ∧ setTimelineZoom 999 = 200 ∧ setTimelineZoom 125 = 125 :=
  ⟨(zoom_setter_clamps.1 30).2.2.1 (by decide),
   (zoom_setter_clamps.1 999).2.2.2.1 (by decide),
   (zoom_setter_clamps.1 125).2.2.2.2 (by decide) (by decide)⟩

/-- C10 (confirmed): `updateTask t` keeps the list length, replaces exactly
the entries whose id equals `t.id` and leaves every other entry unchanged at
its original index; `deleteTask id` yields a sublist (order preserved) whose
members are exactly the input tasks with a different id. -/
theorem updateTask_deleteTask_frame (task : Task) (taskId : String)
    (tasks : List Task) :
    (updateTask task tasks).length = tasks.length
    ∧ (∀ k : Nat, ∀ t, tasks[k]? = some t → t.id ≠ task.id →
        (updateTask task tasks)[k]? = some t)
    ∧ (∀ k : Nat, ∀ t, tasks[k]? = some t → t.id = task.id →
        (updateTask task tasks)[k]? = some task)
    ∧ (deleteTask taskId tasks).Sublist tasks
    ∧ (∀ t, t ∈ deleteTask taskId tasks ↔ t ∈ tasks ∧ t.id ≠ taskId) := by
  refine ⟨by simp [updateTask], ?_, ?_, List.filter_sublist tasks, ?_⟩
  · intro k t hk hne
    unfold updateTask
    rw [List.getElem?_map, hk]
    simp [hne]
  · intro k t hk heq
    unfold updateTask
    rw [List.getElem?_map, hk]
    simp [heq]
  · intro t
    unfold deleteTask
    simp [List.mem_filter]

/-- A sample task for concrete instantiations. -/
def wTaskA : Task := ⟨"a", "t1", some 0, some 1, false, none⟩

/-- A second sample task. -/
def wTaskB : Task := ⟨"b", "t2", some 2, some 3, true, some "done"⟩

/-- An edited version of `wTaskA` (same id, different payload). -/
def wTaskA2 : Task := ⟨"a", "t1 edited", some 0, some 2, true, some "done"⟩

theorem updateTask_deleteTask_frame_witness :
    (updateTask wTaskA2 [wTaskA, wTaskB])[1]? = some wTaskB
    ∧ (updateTask wTaskA2 [wTaskA, wTaskB])[0]? = some wTaskA2
    ∧ (wTaskB ∈ deleteTask "a" [wTaskA, wTaskB] ↔
        wTaskB ∈ [wTaskA, wTaskB] ∧ wTaskB.id ≠ "a") :=
  ⟨(updateTask_deleteTask_frame wTaskA2 "a" [wTaskA, wTaskB]).2.1 1 wTaskB
      (by decide) (by decide),
   (updateTask_deleteTask_frame wTaskA2 "a" [wTaskA, wTaskB]).2.2.1 0 wTaskA
      (by decide) (by decide),
   (updateTask_deleteTask_frame wTaskA2 "a" [wTaskA, wTaskB]).2.2.2.2 wTaskB⟩

/-- C6 counterexample: the stored string `"999"` parses successfully, so
`initializeTimelineZoom` returns zoom 999, which is not in [50, 200]; the
claimed read-time validation does not exist (the code only guards against a
missing key and a parse failure). -/
theorem persisted_zoom_unvalidated_cex :
    initializeTimelineZoom (some "999") = JsonVal.num 999
    ∧ ¬((50 : ℚ) ≤ 999 ∧ (999 : ℚ) ≤ 200)
    ∧ initializeSidebarState (some "999") = JsonVal.num 999 := by
  refine ⟨by decide, by norm_num, by decide⟩

/-- C6 (corrected, amended): reading persisted view state is total (never
raises); a missing key, an empty string, or an unparsable value yields the
documented defaults (zoom 100, sidebar expanded); but a successfully parsed
value is returned as-is, with no range or type validation. -/
theorem persisted_state_reader_amended (stored : Option String) :
    (stored = none → initializeTimelineZoom stored = JsonVal.num 100
      ∧ initializeSidebarState stored = JsonVal.bool false)
    ∧ (∀ s, stored = some s → (s = "" ∨ jsonParseLite s = none) →
        initializeTimelineZoom stored = JsonVal.num 100
        ∧ initializeSidebarState stored = JsonVal.bool false)
    ∧ (∀ s v, stored = some s → s ≠ "" → jsonParseLite s = some v →
        initializeTimelineZoom stored = v ∧ initializeSidebarState stored = v) := by
  refine ⟨?_, ?_, ?_⟩
  · rintro rfl
    exact ⟨rfl, rfl⟩
  · rintro s rfl h
    by_cases hs : s = ""
    · subst hs
      exact ⟨rfl, rfl⟩
    · rcases h with rfl | h
      · exact ⟨rfl, rfl⟩
      · unfold initializeTimelineZoom initializeSidebarState
        simp [hs, h]
  · rintro s v rfl hs hv
    unfold initializeTimelineZoom initializeSidebarState
    simp [hs, hv]

theorem persisted_state_reader_witness :
    (initializeTimelineZoom (some "not json") = JsonVal.num 100
      ∧ initializeSidebarState (some "not json") = JsonVal.bool false)
    ∧ initializeSidebarState (some "true") = JsonVal.bool true :=
  ⟨(persisted_state_reader_amended (some "not json")).2.1 "not json" rfl
      (Or.inr (by decide)),
   ((persisted_state_reader_amended (some "true")).2.2 "true" (JsonVal.bool true)
      rfl (by decide) (by decide)).2⟩

/-- A task whose `status` field is absent; displayed in the todo column. -/
def absentStatusTask : Task := ⟨"t1", "floating", some 0, some 1, true, none⟩

/-- C8 counterexample: a task with an absent status field belongs to the todo
column (`task.status || 'todo'`), yet dropping it onto that same todo column
is not a no-op: the guard compares the raw status field with strict equality,
so an update is issued that sets `status` to todo and resets `completed` from
true to false. -/
theorem kanban_drop_same_column_cex :
    getTasksByStatus [absentStatusTask] "todo" = [absentStatusTask]
    ∧ handleDrop absentStatusTask "todo"
        = some ⟨"t1", "floating", some 0, some 1, false, some "todo"⟩
    ∧ absentStatusTask.completed = true := by decide

/-- C8 (corrected, amended): dropping a task onto a column updates it exactly
when the task's raw status field differs from the column's status (so a task
with an absent status field is updated even on the todo column where it is
displayed); when an update happens it sets `status` to the column's status,
sets `completed` to true exactly for the done column and false otherwise, and
touches nothing else; when the raw status field already equals the target the
drop changes nothing. -/
theorem kanban_drop_amended (t : Task) (newStatus : String) :
    (handleDrop t newStatus = none ↔ t.status = some newStatus)
    ∧ (∀ u, handleDrop t newStatus = some u →
        u.status = some newStatus
        ∧ (u.completed = true ↔ newStatus = "done")
        ∧ u.id = t.id ∧ u.title = t.title
        ∧ u.startDate = t.startDate ∧ u.endDate = t.endDate) := by
  unfold handleDrop
  by_cases h : t.status = some newStatus
  · simp [h]
  · simp only [h, if_false, if_neg h]
    constructor
    · simp
    · rintro u hu
      rw [Option.some_inj] at hu
      subst hu
      simp

theorem kanban_drop_amended_witness :
    (handleDrop wTaskA "done" = none ↔ wTaskA.status = some "done")
    ∧ (⟨"a", "t1", some 0, some 1, true, some "done"⟩ : Task).status = some "done" :=
  ⟨(kanban_drop_amended wTaskA "done").1,
   ((kanban_drop_amended wTaskA "done").2
      ⟨"a", "t1", some 0, some 1, true, some "done"⟩ (by decide)).1⟩

theorem defaultIds_mem_applyColumnOp (cols : List KanbanColumn) (op : ColumnOp)
    {d : String} (hd : d ∈ defaultColumnIds)
    (h : d ∈ cols.map KanbanColumn.id) :
    d ∈ (applyColumnOp cols op).map KanbanColumn.id := by
  cases op with
  | add title ts1 ts2 =>
    show d ∈ (handleAddColumn cols title ts1 ts2).map KanbanColumn.id
    unfold handleAddColumn
    by_cases ht : title.trim = ""
    · rw [if_pos ht]
      exact h
    · rw [if_neg ht, List.map_append, List.mem_append]
      exact Or.inl h
  | delete columnId =>
    show d ∈ (handleDeleteColumn cols columnId).map KanbanColumn.id
    unfold handleDeleteColumn
    by_cases hc : columnId ∈ defaultColumnIds
    · rw [if_pos hc]
      exact h
    · rw [if_neg hc]
      obtain ⟨col, hcol, hid⟩ := List.mem_map.mp h
      refine List.mem_map.mpr ⟨col, List.mem_filter.mpr ⟨hcol, ?_⟩, hid⟩
      have hne : col.id ≠ columnId := by
        intro he
        rw [← hid, he] at hd
        exact hc hd
      simpa using hne
  | rename columnId newTitle =>
    show d ∈ (handleEditColumn cols columnId newTitle).map KanbanColumn.id
    unfold handleEditColumn
    obtain ⟨col, hcol, hid⟩ := List.mem_map.mp h
    refine List.mem_map.mpr
      ⟨if col.id = columnId then { col with title := newTitle } else col,
       List.mem_map.mpr ⟨col, hcol, rfl⟩, ?_⟩
    by_cases hc : col.id = columnId
    · rw [if_pos hc]
      exact hid
    · rw [if_neg hc]
      exact hid

/-- C9 (confirmed): `handleDeleteColumn` refuses to remove any of the five
default column ids (it returns the column set unchanged), and consequently
every state reachable from the initial column set by any sequence of
add/rename/delete operations still contains all five default column ids. -/
theorem default_columns_never_removed (ops : List ColumnOp) :
    (∀ cols columnId, columnId ∈ defaultColumnIds →
      handleDeleteColumn cols columnId = cols)
    ∧ (∀ d ∈ defaultColumnIds, d ∈ (runColumnOps ops).map KanbanColumn.id) := by
  constructor
  · intro cols columnId hc
    unfold handleDeleteColumn
    simp [hc]
  · intro d hd
    unfold runColumnOps
    have hinit : d ∈ initialCustomColumns.map KanbanColumn.id := by
      have hall : ∀ x ∈ defaultColumnIds,
          x ∈ initialCustomColumns.map KanbanColumn.id := by decide
      exact hall d hd
    generalize initialCustomColumns = cols at hinit ⊢
    induction ops generalizing cols with
    | nil => exact hinit
    | cons op rest ih =>
      exact ih _ (defaultIds_mem_applyColumnOp cols op hd hinit)

theorem default_columns_never_removed_witness :
    handleDeleteColumn initialCustomColumns "todo" = initialCustomColumns
    ∧ "todo" ∈ (runColumnOps
        [ColumnOp.add "Review" 5 6, ColumnOp.delete "todo",
         ColumnOp.delete "custom-5", ColumnOp.rename "done" "Finished"]).map
        KanbanColumn.id :=
  ⟨(default_columns_never_removed []).1 initialCustomColumns "todo" (by decide),
   (default_columns_never_removed
      [ColumnOp.add "Review" 5 6, ColumnOp.delete "todo",
       ColumnOp.delete "custom-5", ColumnOp.rename "done" "Finished"]).2
      "todo" (by decide)⟩

/-- C7 (confirmed): the layout computation — a total function, so it never
throws — keeps exactly the tasks whose two dates are valid: membership in the
model's task list is membership in the input with both dates valid; when no
valid task remains the whole model is the empty model (empty period list);
and for a duplicate-free input every valid task produces exactly one
position entry. -/
theorem layout_filters_invalid_tasks (tasks : List Task) (v : ViewType) :
    (∀ t, t ∈ (timelineData tasks v).tasks ↔
      t ∈ tasks ∧ isValidDate t.startDate = true ∧ isValidDate t.endDate = true)
    ∧ (validTasksOf tasks = [] → timelineData tasks v = ⟨[], [], none, none⟩)
    ∧ (tasks.Nodup → ∀ t ∈ tasks, isValidDate t.startDate = true →
        isValidDate t.endDate = true → (timelineData tasks v).tasks.count t = 1) := by
  refine ⟨?_, fun h => timelineData_of_empty h v, ?_⟩
  · intro t
    rw [timelineData_tasks_eq]
    unfold validTasksOf
    simp [List.mem_filter]
  · intro hnd t ht hs he
    rw [timelineData_tasks_eq]
    have hmem : t ∈ validTasksOf tasks := by
      unfold validTasksOf
      rw [List.mem_filter]
      exact ⟨ht, by simp [hs, he]⟩
    exact List.count_eq_one_of_mem (validTasksOf_nodup hnd) hmem

/-- A task with an invalid start date (a `NaN` JavaScript `Date`). -/
def invalidDateTask : Task := ⟨"bad", "broken", none, some 0, false, none⟩

theorem layout_filters_invalid_tasks_witness :
    (invalidDateTask ∈ (timelineData [wTaskA, invalidDateTask] ViewType.daily).tasks ↔
      invalidDateTask ∈ [wTaskA, invalidDateTask]
        ∧ isValidDate invalidDateTask.startDate = true
        ∧ isValidDate invalidDateTask.endDate = true)
    ∧ timelineData [invalidDateTask] ViewType.weekly = ⟨[], [], none, none⟩
    ∧ (timelineData [wTaskA, invalidDateTask] ViewType.daily).tasks.count wTaskA = 1 :=
  ⟨(layout_filters_invalid_tasks [wTaskA, invalidDateTask] ViewType.daily).1
      invalidDateTask,
   (layout_filters_invalid_tasks [invalidDateTask] ViewType.weekly).2.1 (by decide),
   (layout_filters_invalid_tasks [wTaskA, invalidDateTask] ViewType.daily).2.2
      (by decide) wTaskA (by decide) (by decide) (by decide)⟩

theorem jsFindIndex_of_none {α : Type} {p : α → Bool} {l : List α}
    (h : l.findIdx? p = none) : jsFindIndex p l = -1 := by
  unfold jsFindIndex
  rw [h]

theorem jsFindIndex_of_some {α : Type} {p : α → Bool} {l : List α} {i : Nat}
    (h : l.findIdx? p = some i) : jsFindIndex p l = (i : Int) := by
  unfold jsFindIndex
  rw [h]

theorem periodSearchIdx_eq_neg_one (periodEnd : Int → Int) (periods : List Int)
    (d : Int) (h : ∀ p ∈ periods, ¬(p ≤ d ∧ d ≤ periodEnd p)) :
    periodSearchIdx periodEnd periods d = -1 := by
  unfold periodSearchIdx
  apply jsFindIndex_of_none
  rw [List.findIdx?_eq_none_iff]
  intro p hp
  have hnp := h p hp
  simp only [Bool.and_eq_false_iff, decide_eq_false_iff_not, ge_iff_le]
  tauto

theorem periodSearchIdx_bounds (periodEnd : Int → Int) (periods : List Int)
    (d : Int) :
    -1 ≤ periodSearchIdx periodEnd periods d
    ∧ periodSearchIdx periodEnd periods d < (periods.length : Int) := by
  unfold periodSearchIdx
  rcases hf : periods.findIdx?
      (fun period => decide (d ≥ period) && decide (d ≤ periodEnd period)) with _ | i
  · rw [jsFindIndex_of_none hf]
    have : (0 : Int) ≤ (periods.length : Int) := Int.ofNat_nonneg _
    constructor <;> omega
  · rw [jsFindIndex_of_some hf]
    have hi := (List.findIdx?_eq_some_iff_findIdx_eq.mp hf).1
    have hi2 : (i : Int) < (periods.length : Int) := by exact_mod_cast hi
    constructor <;> omega

theorem resolved_idx_bounds (periodEnd : Int → Int) (periods : List Int)
    (h : periods ≠ []) (ts te : Int) :
    0 ≤ resolvedStartIdx periodEnd periods ts
    ∧ resolvedStartIdx periodEnd periods ts ≤ (periods.length : Int) - 1
    ∧ resolvedStartIdx periodEnd periods ts ≤ resolvedEndIdx periodEnd periods ts te
    ∧ resolvedEndIdx periodEnd periods ts te ≤ (periods.length : Int) - 1 := by
  have hlen : 0 < (periods.length : Int) := by
    have hne : periods.length ≠ 0 := fun hh => h (List.length_eq_zero.mp hh)
    omega
  have hb1 := periodSearchIdx_bounds periodEnd periods ts
  have hb2 := periodSearchIdx_bounds periodEnd periods te
  simp only [resolvedEndIdx, resolvedStartIdx]
  split_ifs <;> omega

/-- C3 (confirmed): in the weekly and monthly views (`periodEnd` is
`endOfWeek` or `endOfMonth`), if no period's exact range contains the task's
start date the resolved start index is 0; if no period's range contains the
task's end date the resolved end index equals the resolved start index; the
end index is never below the start index; and the resulting length,
`endIdx - startIdx + 1` periods, is always at least one period. -/
theorem period_index_fallback (periodEnd : Int → Int) (periods : List Int)
    (hper : periods ≠ []) (ts te : Int)
    (hpe : periodEnd = endOfWeek ∨ periodEnd = endOfMonth) :
    ((∀ p ∈ periods, ¬(p ≤ ts ∧ ts ≤ periodEnd p)) →
      resolvedStartIdx periodEnd periods ts = 0)
    ∧ ((∀ p ∈ periods, ¬(p ≤ te ∧ te ≤ periodEnd p)) →
      resolvedEndIdx periodEnd periods ts te = resolvedStartIdx periodEnd periods ts)
    ∧ resolvedStartIdx periodEnd periods ts ≤ resolvedEndIdx periodEnd periods ts te
    ∧ 1 ≤ resolvedEndIdx periodEnd periods ts te
        - resolvedStartIdx periodEnd periods ts + 1 := by
  obtain ⟨hb0, hb1, hb2, hb3⟩ := resolved_idx_bounds periodEnd periods hper ts te
  refine ⟨?_, ?_, hb2, by omega⟩
  · intro h
    have hneg := periodSearchIdx_eq_neg_one periodEnd periods ts h
    have hBad : ¬((-1 : Int) ≥ 0) := by omega
    simp only [resolvedStartIdx, hneg]
    rw [if_neg hBad]
    omega
  · intro h
    have hneg := periodSearchIdx_eq_neg_one periodEnd periods te h
    have hBad : ¬((-1 : Int) ≥ 0) := by omega
    simp only [resolvedEndIdx, hneg]
    rw [if_neg hBad, max_self]
    omega

theorem period_index_fallback_witness :
    resolvedStartIdx endOfWeek [0] 1 ≤ resolvedEndIdx endOfWeek [0] 1 10
    ∧ resolvedEndIdx endOfWeek [0] 1 10 = resolvedStartIdx endOfWeek [0] 1 :=
  ⟨(period_index_fallback endOfWeek [0] (by decide) 1 10 (Or.inl rfl)).2.2.1,
   (period_index_fallback endOfWeek [0] (by decide) 1 10 (Or.inl rfl)).2.1
     (by decide)⟩

theorem getColumnWidth_nonneg (v : ViewType) (zoom : Int) (hz : 0 ≤ zoom) :
    0 ≤ getColumnWidth v zoom := by
  have key : ∀ b : Int, 0 ≤ b → 0 ≤ round ((b : ℚ) * ((zoom : ℚ) / 100)) := by
    intro b hb
    rw [round_eq]
    apply Int.le_floor.mpr
    have h1 : (0 : ℚ) ≤ (b : ℚ) := by exact_mod_cast hb
    have h2 : (0 : ℚ) ≤ (zoom : ℚ) := by exact_mod_cast hz
    push_cast
    nlinarith
  cases v
  · exact key 100 (by omega)
  · exact key 120 (by omega)
  · exact key 150 (by omega)

theorem bars_eq_nondaily (tasks : List Task) (v : ViewType) (zoom : Int)
    (ts te : Int) (hv : v ≠ ViewType.daily) :
    renderedBar tasks v zoom ts te = renderedBarRO tasks v zoom ts te := by
  simp only [renderedBar, renderedBarRO]
  rcases htd : timelineData tasks v with ⟨P, T, S, E⟩
  rcases S with _ | sd <;> rcases E with _ | ed
  · simp [getTaskPosition, getTaskPositionRO]
  · simp [getTaskPosition, getTaskPositionRO]
  · simp [getTaskPosition, getTaskPositionRO]
  · by_cases hP : P.length = 0
    · simp [getTaskPosition, getTaskPositionRO, hP]
    · have hPQ : (P.length : ℚ) ≠ 0 := by exact_mod_cast hP
      cases v with
      | daily => exact absurd rfl hv
      | weekly =>
        simp only [getTaskPosition, getTaskPositionRO, if_neg hP]
        rw [Position.mk.injEq]
        constructor
        · push_cast
          field_simp
          ring
        · congr 1
          push_cast
          field_simp
          ring
      | monthly =>
        simp only [getTaskPosition, getTaskPositionRO, if_neg hP]
        rw [Position.mk.injEq]
        constructor
        · push_cast
          field_simp
          ring
        · congr 1
          push_cast
          field_simp
          ring

theorem bars_left_eq_daily (tasks : List Task) (zoom : Int) (ts te : Int)
    (hz : 0 ≤ zoom) :
    (renderedBar tasks ViewType.daily zoom ts te).left
      = (renderedBarRO tasks ViewType.daily zoom ts te).left := by
  by_cases hval : validTasksOf tasks = []
  · simp only [renderedBar, renderedBarRO, timelineData_of_empty hval]
    simp [getTaskPosition, getTaskPositionRO]
  · have hc : 0 ≤ getColumnWidth ViewType.daily zoom := getColumnWidth_nonneg _ _ hz
    have hmM := rangeMinOf_le_rangeMaxOf hval
    simp only [renderedBar, renderedBarRO, timelineData_daily hval]
    set c := getColumnWidth ViewType.daily zoom with hcdef
    set m := rangeMinOf tasks with hmdef
    set M := rangeMaxOf tasks with hMdef
    have hlen : (eachDayOfInterval m M).length = (M - m + 1).toNat :=
      length_eachDayOfInterval m M
    have hlen0 : ¬((eachDayOfInterval m M).length = 0) := by
      rw [hlen]; omega
    have hlenQ : ((eachDayOfInterval m M).length : ℚ) = ((M - m + 1 : Int) : ℚ) := by
      have : ((eachDayOfInterval m M).length : Int) = M - m + 1 := by rw [hlen]; omega
      exact_mod_cast this
    have hD : totalDaysOf m M = M - m + 1 := by
      simp [totalDaysOf, differenceInDays]
    have hDQpos : (0 : ℚ) < ((totalDaysOf m M : Int) : ℚ) := by
      rw [hD]
      exact_mod_cast (by omega : (0 : Int) < M - m + 1)
    simp only [getTaskPosition, getTaskPositionRO, if_neg hlen0]
    have hs0 : (0 : Int) ≤ dailyStartDays m ts := le_max_left 0 _
    have hsQ : (0 : ℚ) ≤ ((dailyStartDays m ts : Int) : ℚ) := by exact_mod_cast hs0
    rw [max_eq_right (mul_nonneg (div_nonneg hsQ hDQpos.le) (by norm_num)),
      max_eq_right (mul_nonneg hs0 hc)]
    rw [hD] at hDQpos ⊢
    push_cast
    rw [hlenQ]
    push_cast
    have hne : ((M : ℚ) - m + 1) ≠ 0 := by
      have hpos : (0 : ℚ) < (M : ℚ) - m + 1 := by
        exact_mod_cast (by omega : (0 : Int) < M - m + 1)
      linarith
    field_simp
    ring

theorem daily_width_days (tasks : List Task) (ts te sd ed : Int)
    (hsd : (timelineData tasks ViewType.daily).startDate = some sd)
    (hed : (timelineData tasks ViewType.daily).endDate = some ed)
    (hcond : totalDaysOf sd ed ≤ 100 * dailyDuration sd ed ts te) :
    (getTaskPosition ViewType.daily (timelineData tasks ViewType.daily) ts te).width
        / 100 * ((totalDaysOf sd ed : Int) : ℚ)
      = ((dailyDuration sd ed ts te : Int) : ℚ) := by
  have hval : validTasksOf tasks ≠ [] := by
    intro h
    rw [timelineData_of_empty h] at hsd
    cases hsd
  have hmM := rangeMinOf_le_rangeMaxOf hval
  rw [timelineData_daily hval] at hsd hed ⊢
  rw [Option.some_inj] at hsd hed
  subst hsd
  subst hed
  set m := rangeMinOf tasks with hmdef
  set M := rangeMaxOf tasks with hMdef
  have hlen : (eachDayOfInterval m M).length = (M - m + 1).toNat :=
    length_eachDayOfInterval m M
  have hlen0 : ¬((eachDayOfInterval m M).length = 0) := by
    rw [hlen]; omega
  have hD : totalDaysOf m M = M - m + 1 := by
    simp [totalDaysOf, differenceInDays]
  have hDpos : (0 : Int) < totalDaysOf m M := by omega
  have hDQpos : (0 : ℚ) < ((totalDaysOf m M : Int) : ℚ) := by exact_mod_cast hDpos
  have hdur1 : (1 : Int) ≤ dailyDuration m M ts te := le_max_left 1 _
  have hdurQ : (1 : ℚ) ≤ ((dailyDuration m M ts te : Int) : ℚ) := by exact_mod_cast hdur1
  simp only [getTaskPosition, if_neg hlen0]
  have hfloor : (1 : ℚ) ≤
      ((dailyDuration m M ts te : Int) : ℚ) / ((totalDaysOf m M : Int) : ℚ) * 100 := by
    rw [div_mul_eq_mul_div, le_div_iff hDQpos, one_mul]
    calc ((totalDaysOf m M : Int) : ℚ)
        ≤ ((100 * dailyDuration m M ts te : Int) : ℚ) := by exact_mod_cast hcond
      _ = ((dailyDuration m M ts te : Int) : ℚ) * 100 := by push_cast; ring
  rw [max_eq_right hfloor]
  field_simp
  ring

theorem bars_width_eq_daily (tasks : List Task) (zoom : Int) (ts te sd ed : Int)
    (hz : 0 ≤ zoom)
    (hsd : (timelineData tasks ViewType.daily).startDate = some sd)
    (hed : (timelineData tasks ViewType.daily).endDate = some ed)
    (hcond : totalDaysOf sd ed ≤ 100 * dailyDuration sd ed ts te) :
    (renderedBar tasks ViewType.daily zoom ts te).width
      = (renderedBarRO tasks ViewType.daily zoom ts te).width := by
  have hval : validTasksOf tasks ≠ [] := by
    intro h
    rw [timelineData_of_empty h] at hsd
    cases hsd
  have hW := daily_width_days tasks ts te sd ed hsd hed hcond
  have hmM := rangeMinOf_le_rangeMaxOf hval
  have hc : 0 ≤ getColumnWidth ViewType.daily zoom := getColumnWidth_nonneg _ _ hz
  rw [timelineData_daily hval] at hsd hed
  rw [Option.some_inj] at hsd hed
  subst hsd
  subst hed
  simp only [renderedBar, renderedBarRO]
  rw [timelineData_daily hval] at hW ⊢
  set c := getColumnWidth ViewType.daily zoom with hcdef
  set m := rangeMinOf tasks with hmdef
  set M := rangeMaxOf tasks with hMdef
  have hlen : (eachDayOfInterval m M).length = (M - m + 1).toNat :=
    length_eachDayOfInterval m M
  have hlen0 : ¬((eachDayOfInterval m M).length = 0) := by
    rw [hlen]; omega
  have hlenQ : ((eachDayOfInterval m M).length : ℚ) = ((M - m + 1 : Int) : ℚ) := by
    have : ((eachDayOfInterval m M).length : Int) = M - m + 1 := by rw [hlen]; omega
    exact_mod_cast this
  have hD : totalDaysOf m M = M - m + 1 := by
    simp [totalDaysOf, differenceInDays]
  have hdur1 : (1 : Int) ≤ dailyDuration m M ts te := le_max_left 1 _
  have hlenD : ((eachDayOfInterval m M).length : ℚ) = ((totalDaysOf m M : Int) : ℚ) := by
    rw [hD]
    exact_mod_cast hlenQ
  simp only [getTaskPositionRO, if_neg hlen0]
  have hro : max c (dailyDuration m M ts te * c) = dailyDuration m M ts te * c :=
    max_eq_right (le_mul_of_one_le_left hc hdur1)
  rw [hro]
  set W := (getTaskPosition ViewType.daily
      ⟨eachDayOfInterval m M, validTasksOf tasks, some m, some M⟩ ts te).width with hWdef
  congr 1
  calc W / 100 * ((((eachDayOfInterval m M).length : Int) * c : Int) : ℚ)
      = W / 100 * (((totalDaysOf m M : Int) : ℚ) * (c : ℚ)) := by
        push_cast
        rw [hlenD]
    _ = (W / 100 * ((totalDaysOf m M : Int) : ℚ)) * (c : ℚ) := by ring
    _ = ((dailyDuration m M ts te : Int) : ℚ) * (c : ℚ) := by rw [hW]
    _ = ((dailyDuration m M ts te * c : Int) : ℚ) := by push_cast; ring

/-- A one-day task at day 0 — with `cexTaskLate` it stretches the timeline
to 101 days. -/
def cexTaskEarly : Task := ⟨"c", "first", some 0, some 0, false, none⟩

/-- A one-day task at day 100. -/
def cexTaskLate : Task := ⟨"d", "last", some 100, some 100, false, none⟩

/-- A 101-day timeline with two one-day tasks at its ends. -/
def cexTasks : List Task := [cexTaskEarly, cexTaskLate]

/-- C1 counterexample: on a 101-day daily timeline at zoom 100, the one-day
task at day 0 is rendered 101 px wide by the editable renderer (whose width
floor is 1 percent of the span) but 100 px wide by the read-only renderer
(whose floor is one column width), so the two renderers are not
pixel-identical. -/
theorem renderer_geometry_cex :
    (renderedBar cexTasks ViewType.daily 100 0 0).width = 101
    ∧ (renderedBarRO cexTasks ViewType.daily 100 0 0).width = 100 := by
  have hval : validTasksOf cexTasks ≠ [] := by decide
  have h0 : rangeMinOf cexTasks = 0 := by decide
  have h1 : rangeMaxOf cexTasks = 100 := by decide
  have hlen0 : ¬((eachDayOfInterval (0 : Int) 100).length = 0) := by decide
  have hlen : ((eachDayOfInterval (0 : Int) 100).length : Int) = 101 := by decide
  have hdur : dailyDuration 0 100 0 0 = 1 := by decide
  have htot : totalDaysOf 0 100 = 101 := by decide
  have hcw : getColumnWidth ViewType.daily 100 = 100 := by
    unfold getColumnWidth
    norm_num
  simp only [renderedBar, renderedBarRO, timelineData_daily hval, h0, h1]
  simp only [getTaskPosition, getTaskPositionRO, if_neg hlen0]
  rw [hdur, htot, hcw, hlen]
  push_cast
  simp only [max_def]
  norm_num

/-- C1 (corrected, amended): for every task list, view, zoom percent in
[50, 200] and task dates, the editable and the read-only renderer produce
identical final left offsets in every view, and identical final widths in
the weekly and monthly views; in the daily view the widths also agree
whenever the timeline's total day count is at most 100 times the task's
computed day duration (in particular whenever the span is at most 100 days).
Beyond that the editable renderer's 1-percent width floor and the read-only
renderer's one-column width floor diverge, so full pixel-identity fails. -/
theorem renderer_geometry_amended (tasks : List Task) (v : ViewType)
    (zoom : Int) (ts te : Int) (hz1 : 50 ≤ zoom) (hz2 : zoom ≤ 200) :
    (renderedBar tasks v zoom ts te).left = (renderedBarRO tasks v zoom ts te).left
    ∧ (v ≠ ViewType.daily →
        (renderedBar tasks v zoom ts te).width
          = (renderedBarRO tasks v zoom ts te).width)
    ∧ (∀ sd ed : Int, (timelineData tasks v).startDate = some sd →
        (timelineData tasks v).endDate = some ed →
        totalDaysOf sd ed ≤ 100 * dailyDuration sd ed ts te →
        (renderedBar tasks v zoom ts te).width
          = (renderedBarRO tasks v zoom ts te).width) := by
  have hz0 : (0 : Int) ≤ zoom := by omega
  refine ⟨?_, ?_, ?_⟩
  · cases v with
    | daily => exact bars_left_eq_daily tasks zoom ts te hz0
    | weekly => rw [bars_eq_nondaily tasks ViewType.weekly zoom ts te (by decide)]
    | monthly => rw [bars_eq_nondaily tasks ViewType.monthly zoom ts te (by decide)]
  · intro hnd
    rw [bars_eq_nondaily tasks v zoom ts te hnd]
  · intro sd ed hsd hed hcond
    cases v with
    | daily => exact bars_width_eq_daily tasks zoom ts te sd ed hz0 hsd hed hcond
    | weekly => rw [bars_eq_nondaily tasks ViewType.weekly zoom ts te (by decide)]
    | monthly => rw [bars_eq_nondaily tasks ViewType.monthly zoom ts te (by decide)]

theorem renderer_geometry_amended_witness :
    (50 ≤ (100 : Int)) ∧ ((100 : Int) ≤ 200)
    ∧ (renderedBar [wTaskA] ViewType.daily 100 0 1).left
        = (renderedBarRO [wTaskA] ViewType.daily 100 0 1).left
    ∧ (renderedBar [wTaskA] ViewType.daily 100 0 1).width
        = (renderedBarRO [wTaskA] ViewType.daily 100 0 1).width :=
  ⟨by decide, by decide,
   (renderer_geometry_amended [wTaskA] ViewType.daily 100 0 1
      (by decide) (by decide)).1,
   (renderer_geometry_amended [wTaskA] ViewType.daily 100 0 1
      (by decide) (by decide)).2.2 0 1 (by decide) (by decide) (by decide)⟩

/-- C4 counterexample: on the same 101-day daily timeline, the task with
`startDate = endDate` has computed day duration 1, but the resolver's
returned width converted back to days is 101/100 — more than exactly one day
— because of the 1-percent width floor. -/
theorem resolver_one_day_cex :
    (getTaskPosition ViewType.daily (timelineData cexTasks ViewType.daily) 0 0).width
        / 100 * ((totalDaysOf 0 100 : Int) : ℚ) = 101 / 100
    ∧ ¬((101 : ℚ) / 100 = 1)
    ∧ dailyDuration 0 100 0 0 = 1
    ∧ (timelineData cexTasks ViewType.daily).startDate = some 0
    ∧ (timelineData cexTasks ViewType.daily).endDate = some 100 := by
  have hval : validTasksOf cexTasks ≠ [] := by decide
  have h0 : rangeMinOf cexTasks = 0 := by decide
  have h1 : rangeMaxOf cexTasks = 100 := by decide
  have hlen0 : ¬((eachDayOfInterval (0 : Int) 100).length = 0) := by decide
  have hdur : dailyDuration 0 100 0 0 = 1 := by decide
  have htot : totalDaysOf 0 100 = 101 := by decide
  refine ⟨?_, by norm_num, by decide, by decide, by decide⟩
  simp only [timelineData_daily hval, h0, h1]
  simp only [getTaskPosition, if_neg hlen0]
  rw [hdur, htot]
  push_cast
  simp only [max_def]
  norm_num

/-- C4 (corrected, amended): the resolver never produces a zero or negative
length.  A task with `startDate = endDate` has computed day duration exactly
1, and its returned width corresponds to exactly one day whenever the
timeline spans at most 100 days (beyond that the 1-percent width floor makes
the width correspond to totalDays/100 > 1 days); a task with
`endDate < startDate` still has day duration ≥ 1 (daily) and occupies ≥ 1
period (weekly/monthly); and both renderers floor the rendered bar width at
the fixed 40-pixel minimum. -/
theorem resolver_length_floors_amended (tasks : List Task) (v : ViewType)
    (zoom : Int) (ts te : Int) (hz1 : 50 ≤ zoom) (hz2 : zoom ≤ 200) :
    (∀ sd ed : Int, dailyDuration sd ed ts ts = 1)
    ∧ (∀ sd ed : Int, te < ts → 1 ≤ dailyDuration sd ed ts te)
    ∧ (∀ sd ed : Int, (timelineData tasks ViewType.daily).startDate = some sd →
        (timelineData tasks ViewType.daily).endDate = some ed →
        totalDaysOf sd ed ≤ 100 →
        (getTaskPosition ViewType.daily (timelineData tasks ViewType.daily) ts te).width
            / 100 * ((totalDaysOf sd ed : Int) : ℚ)
          = ((dailyDuration sd ed ts te : Int) : ℚ))
    ∧ (∀ periodEnd : Int → Int, ∀ periods : List Int, periods ≠ [] → te < ts →
        1 ≤ resolvedEndIdx periodEnd periods ts te
            - resolvedStartIdx periodEnd periods ts + 1)
    ∧ 40 ≤ (renderedBar tasks v zoom ts te).width
    ∧ 40 ≤ (renderedBarRO tasks v zoom ts te).width := by
  refine ⟨?_, ?_, ?_, ?_, ?_, ?_⟩
  · intro sd ed
    simp only [dailyDuration, dailyEndDays, dailyStartDays, totalDaysOf,
      differenceInDays]
    omega
  · intro sd ed hlt
    exact le_max_left 1 _
  · intro sd ed hsd hed h100
    apply daily_width_days tasks ts te sd ed hsd hed
    have hdur1 : (1 : Int) ≤ dailyDuration sd ed ts te := le_max_left 1 _
    omega
  · intro periodEnd periods hper hlt
    have := (resolved_idx_bounds periodEnd periods hper ts te).2.2.1
    omega
  · simp only [renderedBar]
    exact le_max_right _ _
  · simp only [renderedBarRO]
    exact le_max_right _ _

theorem resolver_length_floors_amended_witness :
    dailyDuration 0 1 5 5 = 1
    ∧ 1 ≤ dailyDuration 0 1 5 2
    ∧ 1 ≤ resolvedEndIdx endOfWeek [0] 5 2 - resolvedStartIdx endOfWeek [0] 5 + 1
    ∧ 40 ≤ (renderedBar [wTaskA] ViewType.daily 100 0 1).width :=
  ⟨(resolver_length_floors_amended [wTaskA] ViewType.daily 100 5 5
      (by decide) (by decide)).1 0 1,
   (resolver_length_floors_amended [wTaskA] ViewType.daily 100 5 2
      (by decide) (by decide)).2.1 0 1 (by decide),
   (resolver_length_floors_amended [wTaskA] ViewType.daily 100 5 2
      (by decide) (by decide)).2.2.2.1 endOfWeek [0] (by decide) (by decide),
   (resolver_length_floors_amended [wTaskA] ViewType.daily 100 0 1
      (by decide) (by decide)).2.2.2.2.1⟩

/-- C2 (confirmed): in daily view, for every non-empty list of valid-date
tasks, each task's computed interval [offset, offset + length), converted
back to day numbers relative to the timeline range start, contains the
task's own [startDate, endDate] day interval. -/
theorem daily_position_covers (tasks : List Task) (hne : tasks ≠ [])
    (hval : ∀ t ∈ tasks, isValidDate t.startDate = true ∧ isValidDate t.endDate = true)
    (t : Task) (ht : t ∈ tasks) (s e : Int)
    (hs : t.startDate = some s) (he : t.endDate = some e)
    (sd ed : Int)
    (hsd : (timelineData tasks ViewType.daily).startDate = some sd)
    (hed : (timelineData tasks ViewType.daily).endDate = some ed)
    (x : Int) (hx1 : s - sd ≤ x) (hx2 : x ≤ e - sd) :
    (getTaskPosition ViewType.daily (timelineData tasks ViewType.daily) s e).left
        / 100 * ((totalDaysOf sd ed : Int) : ℚ) ≤ (x : ℚ)
    ∧ (x : ℚ) <
        (getTaskPosition ViewType.daily (timelineData tasks ViewType.daily) s e).left
          / 100 * ((totalDaysOf sd ed : Int) : ℚ)
        + (getTaskPosition ViewType.daily (timelineData tasks ViewType.daily) s e).width
          / 100 * ((totalDaysOf sd ed : Int) : ℚ) := by
  have htv : t ∈ validTasksOf tasks := by
    unfold validTasksOf
    exact List.mem_filter.mpr ⟨ht, by simp [isValidDate, hs, he]⟩
  have hvne : validTasksOf tasks ≠ [] := fun hh => by
    rw [hh] at htv
    exact List.not_mem_nil t htv
  rw [timelineData_daily hvne] at hsd hed ⊢
  rw [Option.some_inj] at hsd hed
  subst hsd
  subst hed
  have hms : rangeMinOf tasks ≤ s := by
    simpa [hs] using rangeMinOf_le (startDate_mem_allDatesOf htv)
  have heM : e ≤ rangeMaxOf tasks := by
    simpa [he] using le_rangeMaxOf (endDate_mem_allDatesOf htv)
  have hmM := rangeMinOf_le_rangeMaxOf hvne
  set m := rangeMinOf tasks with hmdef
  set M := rangeMaxOf tasks with hMdef
  have hlen0 : ¬((eachDayOfInterval m M).length = 0) := by
    rw [length_eachDayOfInterval]
    omega
  simp only [getTaskPosition, if_neg hlen0]
  have hD : totalDaysOf m M = M - m + 1 := by
    simp [totalDaysOf, differenceInDays]
  have hDQpos : (0 : ℚ) < ((totalDaysOf m M : Int) : ℚ) := by
    exact_mod_cast (by omega : (0 : Int) < totalDaysOf m M)
  have hDne : ((totalDaysOf m M : Int) : ℚ) ≠ 0 := ne_of_gt hDQpos
  have hsdays : dailyStartDays m s = s - m := by
    simp only [dailyStartDays, differenceInDays]
    omega
  have hedays : dailyEndDays m M e = e - m := by
    simp only [dailyEndDays, totalDaysOf, differenceInDays]
    omega
  have hdurge : (e - m) - (s - m) + 1 ≤ dailyDuration m M s e := by
    simp only [dailyDuration, hsdays, hedays]
    exact le_max_right _ _
  have hleft : max 0 (((dailyStartDays m s : Int) : ℚ)
        / ((totalDaysOf m M : Int) : ℚ) * 100) / 100 * ((totalDaysOf m M : Int) : ℚ)
      = ((s - m : Int) : ℚ) := by
    rw [hsdays]
    have hnum : (0 : ℚ) ≤ ((s - m : Int) : ℚ) := by
      exact_mod_cast (by omega : (0 : Int) ≤ s - m)
    rw [max_eq_right (mul_nonneg (div_nonneg hnum hDQpos.le) (by norm_num))]
    field_simp
    ring
  constructor
  · rw [hleft]
    exact_mod_cast hx1
  · rw [hleft]
    have hch : (((dailyDuration m M s e : Int) : ℚ)
          / ((totalDaysOf m M : Int) : ℚ) * 100) / 100 * ((totalDaysOf m M : Int) : ℚ)
        = ((dailyDuration m M s e : Int) : ℚ) := by
      field_simp
      ring
    have h1 : ((dailyDuration m M s e : Int) : ℚ)
          / ((totalDaysOf m M : Int) : ℚ) * 100
        ≤ max 1 (((dailyDuration m M s e : Int) : ℚ)
          / ((totalDaysOf m M : Int) : ℚ) * 100) := le_max_right _ _
    have h2 : (((dailyDuration m M s e : Int) : ℚ)
          / ((totalDaysOf m M : Int) : ℚ) * 100) / 100 * ((totalDaysOf m M : Int) : ℚ)
        ≤ (max 1 (((dailyDuration m M s e : Int) : ℚ)
          / ((totalDaysOf m M : Int) : ℚ) * 100)) / 100 * ((totalDaysOf m M : Int) : ℚ) := by
      gcongr
    rw [hch] at h2
    have hx : (x : ℚ) < ((s - m : Int) : ℚ) + ((dailyDuration m M s e : Int) : ℚ) := by
      have hxi : x < (s - m) + dailyDuration m M s e := by omega
      exact_mod_cast hxi
    linarith

theorem daily_position_covers_witness :
    (getTaskPosition ViewType.daily (timelineData [wTaskA] ViewType.daily) 0 1).left
        / 100 * ((totalDaysOf 0 1 : Int) : ℚ) ≤ ((1 : Int) : ℚ)
    ∧ ((1 : Int) : ℚ) <
        (getTaskPosition ViewType.daily (timelineData [wTaskA] ViewType.daily) 0 1).left
          / 100 * ((totalDaysOf 0 1 : Int) : ℚ)
        + (getTaskPosition ViewType.daily (timelineData [wTaskA] ViewType.daily) 0 1).width
          / 100 * ((totalDaysOf 0 1 : Int) : ℚ) :=
  daily_position_covers [wTaskA] (by decide) (by decide) wTaskA (by decide)
    0 1 (by decide) (by decide) 0 1 (by decide) (by decide) 1 (by decide) (by decide)

end EzTimeline
